import Mathlib

set_option maxRecDepth 100000

/-!
# Verification of the `night_pnl` exchange-signing script

A shallow embedding of the request-signing and response-normalization layer
of `pnl.py`: Bybit/Binance/OKX HMAC-SHA256 signing (hex or base64 output),
`urllib.parse.urlencode` percent-encoding, the OKX response double-layer
error check, and the position-selection helpers.  Byte strings are
`List Nat` (each element a byte value), 32-bit words are `Nat` reduced
modulo `2^32` explicitly.
-/

namespace PnL

/-- Byte strings: lists of byte values (each `< 256`). -/
abbrev Bytes := List Nat

/-! ## UTF-8 encoding (Python `str.encode("utf-8")`) -/

/-- UTF-8 encoding of a single code point, arithmetically
(`/ 64`, `% 64` in place of shifts). -/
def utf8Char (c : Char) : Bytes :=
  if c.toNat < 128 then [c.toNat]
  else if c.toNat < 2048 then [192 + c.toNat / 64, 128 + c.toNat % 64]
  else if c.toNat < 65536 then
    [224 + c.toNat / 4096, 128 + c.toNat / 64 % 64, 128 + c.toNat % 64]
  else
    [240 + c.toNat / 262144, 128 + c.toNat / 4096 % 64, 128 + c.toNat / 64 % 64,
     128 + c.toNat % 64]

/-- UTF-8 encoding of a string. -/
def utf8 (s : String) : Bytes := s.data.flatMap utf8Char

/-! ## SHA-256 (FIPS 180-4), over byte lists with explicit `% 2^32` -/

def mask32 (n : Nat) : Nat := n % 4294967296

/-- Right rotation of a 32-bit word. -/
def rotr32 (k n : Nat) : Nat := mask32 (n / 2 ^ k + n % 2 ^ k * 2 ^ (32 - k))

def bigSigma0 (x : Nat) : Nat := rotr32 2 x ^^^ rotr32 13 x ^^^ rotr32 22 x
def bigSigma1 (x : Nat) : Nat := rotr32 6 x ^^^ rotr32 11 x ^^^ rotr32 25 x
def smallSigma0 (x : Nat) : Nat := rotr32 7 x ^^^ rotr32 18 x ^^^ x / 2 ^ 3
def smallSigma1 (x : Nat) : Nat := rotr32 17 x ^^^ rotr32 19 x ^^^ x / 2 ^ 10

def shaCh (x y z : Nat) : Nat := (x &&& y) ^^^ ((x ^^^ 4294967295) &&& z)
def shaMaj (x y z : Nat) : Nat := (x &&& y) ^^^ (x &&& z) ^^^ (y &&& z)

/-- The 64 SHA-256 round constants (FIPS 180-4 §4.2.2), in decimal. -/
def shaK : List Nat :=
  [1116352408, 1899447441, 3049323471, 3921009573, 961987163,
   1508970993, 2453635748, 2870763221, 3624381080, 310598401,
   607225278, 1426881987, 1925078388, 2162078206, 2614888103,
   3248222580, 3835390401, 4022224774, 264347078, 604807628,
   770255983, 1249150122, 1555081692, 1996064986, 2554220882,
   2821834349, 2952996808, 3210313671, 3336571891, 3584528711,
   113926993, 338241895, 666307205, 773529912, 1294757372,
   1396182291, 1695183700, 1986661051, 2177026350, 2456956037,
   2730485921, 2820302411, 3259730800, 3345764771, 3516065817,
   3600352804, 4094571909, 275423344, 430227734, 506948616,
   659060556, 883997877, 958139571, 1322822218, 1537002063,
   1747873779, 1955562222, 2024104815, 2227730452, 2361852424,
   2428436474, 2756734187, 3204031479, 3329325298]

/-- The initial SHA-256 hash state (FIPS 180-4 §5.3.3), in decimal. -/
def shaH0 : List Nat :=
  [1779033703, 3144134277, 1013904242, 2773480762,
   1359893119, 2600822924, 528734635, 1541459225]

/-- Big-endian 8-byte length field. -/
def lenBytes8 (n : Nat) : Bytes :=
  [n / 2 ^ 56 % 256, n / 2 ^ 48 % 256, n / 2 ^ 40 % 256, n / 2 ^ 32 % 256,
   n / 2 ^ 24 % 256, n / 2 ^ 16 % 256, n / 2 ^ 8 % 256, n % 256]

/-- Merkle–Damgård padding: `0x80`, zeros to 56 mod 64, then the bit length. -/
def shaPad (msg : Bytes) : Bytes :=
  msg ++ 128 :: List.replicate ((119 - msg.length % 64) % 64) 0
      ++ lenBytes8 (8 * msg.length)

/-- Group bytes into big-endian 32-bit words. -/
def toWords : Bytes → List Nat
  | b0 :: b1 :: b2 :: b3 :: rest =>
      (b0 * 2 ^ 24 + b1 * 2 ^ 16 + b2 * 2 ^ 8 + b3) :: toWords rest
  | _ => []

/-- Big-endian bytes of a 32-bit word. -/
def wordBytes (w : Nat) : Bytes :=
  [w / 2 ^ 24 % 256, w / 2 ^ 16 % 256, w / 2 ^ 8 % 256, w % 256]

/-- One message-schedule extension step: append `W[n]` from the last 16 words. -/
def scheduleStep (w : List Nat) : List Nat :=
  let n := w.length
  w ++ [mask32 (smallSigma1 (w.getD (n - 2) 0) + w.getD (n - 7) 0 +
                smallSigma0 (w.getD (n - 15) 0) + w.getD (n - 16) 0)]

/-- Full 64-word message schedule from the 16 block words. -/
def schedule (w16 : List Nat) : List Nat := scheduleStep^[48] w16

/-- One compression round; the state is the 8-word list `[a,b,c,d,e,f,g,h]`. -/
def shaRound (st : List Nat) (kw : Nat × Nat) : List Nat :=
  match st with
  | [a, b, c, d, e, f, g, h] =>
      let t1 := mask32 (h + bigSigma1 e + shaCh e f g + kw.1 + kw.2)
      let t2 := mask32 (bigSigma0 a + shaMaj a b c)
      [mask32 (t1 + t2), a, b, c, mask32 (d + t1), e, f, g]
  | _ => st

/-- Compress one 64-byte block into the hash state. -/
def compressBlock (hs : List Nat) (block : Bytes) : List Nat :=
  let ws := schedule (toWords block)
  let st := (shaK.zip ws).foldl shaRound hs
  (hs.zip st).map fun p => mask32 (p.1 + p.2)

/-- Split a byte list into 64-byte chunks (`fuel` bounds the recursion so the
kernel can reduce it; `fuel = l.length` always suffices). -/
def chunks64Fuel : Nat → Bytes → List Bytes
  | _, [] => []
  | 0, _ => []
  | fuel + 1, l => l.take 64 :: chunks64Fuel fuel (l.drop 64)

/-- Split a byte list into 64-byte chunks. -/
def chunks64 (l : Bytes) : List Bytes := chunks64Fuel l.length l

/-- SHA-256 of a byte string. -/
def sha256 (msg : Bytes) : Bytes :=
  ((chunks64 (shaPad msg)).foldl compressBlock shaH0).flatMap wordBytes

/-! ## HMAC-SHA256 (RFC 2104, block size 64) -/

def hmacSha256 (key msg : Bytes) : Bytes :=
  let k0 := if key.length > 64 then sha256 key else key
  let k := k0 ++ List.replicate (64 - k0.length) 0
  let ipad := k.map (· ^^^ 54)
  let opad := k.map (· ^^^ 92)
  sha256 (opad ++ sha256 (ipad ++ msg))

/-! ## Hex and base64 output encodings -/

/-- Lowercase hex digit, as produced by Python `.hexdigest()`. -/
def hexDigitLower (n : Nat) : Char :=
  if n < 10 then Char.ofNat (48 + n) else Char.ofNat (87 + n)

/-- `bytes.hex()` / `.hexdigest()`: lowercase hex string of a byte list. -/
def hexLower (bs : Bytes) : String :=
  String.mk (bs.flatMap fun b => [hexDigitLower (b / 16), hexDigitLower (b % 16)])

def b64Char (n : Nat) : Char :=
  "ABCDEFGHIJKLMNOPQRSTUVWXYZabcdefghijklmnopqrstuvwxyz0123456789+/".toList.getD n 'A'

def b64Chunks : Bytes → List Char
  | b0 :: b1 :: b2 :: rest =>
      b64Char (b0 / 4) :: b64Char (b0 % 4 * 16 + b1 / 16) ::
      b64Char (b1 % 16 * 4 + b2 / 64) :: b64Char (b2 % 64) :: b64Chunks rest
  | [b0, b1] => [b64Char (b0 / 4), b64Char (b0 % 4 * 16 + b1 / 16), b64Char (b1 % 16 * 4), '=']
  | [b0] => [b64Char (b0 / 4), b64Char (b0 % 4 * 16), '=', '=']
  | [] => []

/-- `base64.b64encode(...).decode("utf-8")`. -/
def base64Encode (bs : Bytes) : String := String.mk (b64Chunks bs)

/-! ## `urllib.parse.urlencode` with `quote_plus`

`urlencode` percent-encodes keys and values byte-by-byte over their UTF-8
encodings: bytes in `ALWAYS_SAFE` (ASCII alphanumerics and `_.-~`) pass
through, a space becomes `+`, every other byte becomes `%XX` with uppercase
hex; pairs are joined `k=v` with `&` between them, in insertion order. -/

/-- A byte in urllib's `ALWAYS_SAFE` set (with the default empty `safe`). -/
def safeByte (b : Nat) : Bool :=
  (48 ≤ b && b ≤ 57) || (65 ≤ b && b ≤ 90) || (97 ≤ b && b ≤ 122) ||
  b == 95 || b == 46 || b == 45 || b == 126

/-- Uppercase hex digit, as in urllib's `%XX` escapes. -/
def hexDigitUpper (n : Nat) : Char :=
  if n < 10 then Char.ofNat (48 + n) else Char.ofNat (55 + n)

/-- `quote_plus` on a single byte. -/
def encByte (b : Nat) : List Char :=
  if safeByte b then [Char.ofNat b]
  else if b = 32 then ['+']
  else ['%', hexDigitUpper (b / 16), hexDigitUpper (b % 16)]

/-- `urllib.parse.quote_plus` (with `safe=''`), as a char list. -/
def quotePlusChars (s : String) : List Char := (utf8 s).flatMap encByte

/-- One `key=value` token of the encoded query string. -/
def qsToken (k v : String) : List Char := quotePlusChars k ++ '=' :: quotePlusChars v

/-- Join tokens with `&`. -/
def joinAmp : List (List Char) → List Char
  | [] => []
  | [t] => t
  | t :: t2 :: ts => t ++ '&' :: joinAmp (t2 :: ts)

/-- `urllib.parse.urlencode` over a string-valued ordered mapping. -/
def urlencode (ps : List (String × String)) : String :=
  String.mk (joinAmp (ps.map fun p => qsToken p.1 p.2))

/-! ### Decoders (used to prove the encodings injective) -/

/-- Value of an uppercase hex digit character. -/
def hexValUpper (c : Char) : Nat :=
  if c.toNat ≤ 57 then c.toNat - 48 else c.toNat - 55

/-- Left inverse of byte-wise `quote_plus`: turn an encoded char stream back
into bytes (`+` is a space, `%XX` a hex escape, anything else a literal). -/
def decBytes : List Char → List Nat
  | [] => []
  | c :: rest =>
    if c = '+' then 32 :: decBytes rest
    else if c = '%' then
      match rest with
      | h :: l :: rest2 => (hexValUpper h * 16 + hexValUpper l) :: decBytes rest2
      | [_] => []
      | [] => []
    else c.toNat :: decBytes rest

/-- Decode one UTF-8 sequence: from its leading byte and the remaining
stream, recover the character and the unconsumed rest. -/
def utf8DecStep (b : Nat) (rest : List Nat) : Char × List Nat :=
  if b < 128 then (Char.ofNat b, rest)
  else if b < 224 then
    match rest with
    | b1 :: rest1 => (Char.ofNat ((b - 192) * 64 + (b1 - 128)), rest1)
    | [] => ('A', [])
  else if b < 240 then
    match rest with
    | b1 :: b2 :: rest2 =>
        (Char.ofNat ((b - 224) * 4096 + (b1 - 128) * 64 + (b2 - 128)), rest2)
    | _ => ('A', [])
  else
    match rest with
    | b1 :: b2 :: b3 :: rest3 =>
        (Char.ofNat ((b - 240) * 262144 + (b1 - 128) * 4096 + (b2 - 128) * 64
          + (b3 - 128)), rest3)
    | _ => ('A', [])

/-- Fuelled driver for UTF-8 decoding (one unit of fuel per character). -/
def utf8DecFuel : Nat → List Nat → List Char
  | 0, _ => []
  | _ + 1, [] => []
  | fuel + 1, b :: rest =>
    (utf8DecStep b rest).1 :: utf8DecFuel fuel (utf8DecStep b rest).2

/-- Left inverse of `utf8`: decode a UTF-8 byte stream back to characters. -/
def utf8Dec (l : List Nat) : List Char := utf8DecFuel l.length l

/-! ### Python values and `urlencode(..., doseq=True)` -/

/-- A scalar Python value sent as a query parameter (`str` or `int`). -/
inductive PyScalar where
  | str (v : String)
  | int (v : Int)
deriving DecidableEq

/-- Python `str()` of a scalar. -/
def PyScalar.render : PyScalar → String
  | .str v => v
  | .int v => toString v

/-- A Python query-parameter value: a scalar, or a list of scalars
(serialized as repeated keys under `doseq=True`). -/
inductive PyVal where
  | scalar (v : PyScalar)
  | arr (vs : List PyScalar)
deriving DecidableEq

/-- The `key=value` tokens one parameter contributes under `doseq=True`. -/
def doseqTokens (k : String) (v : PyVal) : List (List Char) :=
  match v with
  | .scalar s => [quotePlusChars k ++ '=' :: quotePlusChars s.render]
  | .arr vs => vs.map fun e => quotePlusChars k ++ '=' :: quotePlusChars e.render

/-- `urllib.parse.urlencode(params, doseq=True)`. -/
def urlencodeDoseq (ps : List (String × PyVal)) : String :=
  String.mk (joinAmp (ps.flatMap fun p => doseqTokens p.1 p.2))

/-! ### Python dict operations (insertion-ordered association lists) -/

/-- A Python dict of query parameters, in insertion order. -/
abbrev Dict := List (String × PyVal)

/-- `d.setdefault(k, v)`: insert `(k, v)` at the end iff `k` is absent. -/
def dictSetdefault (d : Dict) (k : String) (v : PyVal) : Dict :=
  if d.any (fun p => p.1 == k) then d else d ++ [(k, v)]

/-- `d[k] = v`: overwrite in place if `k` is present, else append. -/
def dictSet (d : Dict) (k : String) (v : PyVal) : Dict :=
  if d.any (fun p => p.1 == k) then d.map (fun p => if p.1 == k then (p.1, v) else p)
  else d ++ [(k, v)]

/-! ## Bybit signing (`_bybit_hmac_sign`, `bybit_get_positions`) -/

def BYBIT_RECV_WINDOW : String := "5000"

/-- `_bybit_hmac_sign`: HMAC-SHA256 hex digest of the message under the secret. -/
def bybit_hmac_sign (message secret : String) : String :=
  hexLower (hmacSha256 (utf8 secret) (utf8 message))

/-- The params dict built by `bybit_get_positions` (insertion order:
`category`, then each optional argument that is not `None`). -/
def bybit_params (symbol base_coin settle_coin : Option String) (limit : Option Int)
    (cursor : Option String) : List (String × String) :=
  [("category", "linear")]
  ++ (match symbol with | some s => [("symbol", s)] | none => [])
  ++ (match base_coin with | some s => [("baseCoin", s)] | none => [])
  ++ (match settle_coin with | some s => [("settleCoin", s)] | none => [])
  ++ (match limit with | some n => [("limit", toString n)] | none => [])
  ++ (match cursor with | some s => [("cursor", s)] | none => [])

/-- The Bybit pre-sign string (`pre_sign` in `bybit_get_positions`):
`timestamp + api_key + BYBIT_RECV_WINDOW + query_string`. -/
def bybit_pre_sign (timestamp api_key : String) (params : List (String × String)) : String :=
  timestamp ++ api_key ++ BYBIT_RECV_WINDOW ++ urlencode params

/-- The Bybit signature as computed in `bybit_get_positions`. -/
def bybit_signature (timestamp api_key api_secret : String)
    (params : List (String × String)) : String :=
  bybit_hmac_sign (bybit_pre_sign timestamp api_key params) api_secret

/-- Spec-side Bybit signature, following the specification's words:
lowercase-hex HMAC-SHA256 of `timestamp ++ apiKey ++ recvWindow ++
urlencode(params)` with the query map serialized in key-insertion order. -/
def bybitSignatureSpec (timestamp api_key api_secret : String)
    (params : List (String × String)) : String :=
  hexLower (hmacSha256 (utf8 api_secret)
    (utf8 (timestamp ++ api_key ++ "5000" ++ urlencode params)))

/-! ## Binance signing (`_binance_sign_params`, `_binance_signed_get`,
`binance_get_futures_income`) -/

/-- `_binance_sign_params`: hex HMAC-SHA256 of `urlencode(params, doseq=True)`. -/
def binance_sign_params (params : Dict) (api_secret : String) : String :=
  hexLower (hmacSha256 (utf8 api_secret) (utf8 (urlencodeDoseq params)))

/-- The params of `_binance_signed_get` after `setdefault("timestamp", now)`,
before the signature is attached. -/
def binance_presigned (params : Dict) (now_ms : Int) : Dict :=
  dictSetdefault params "timestamp" (.scalar (.int now_ms))

/-- The final request params of `_binance_signed_get`: copy the caller's map,
default `timestamp` to call time, then attach `signature` over everything
present so far. -/
def binance_signed_get_params (params0 : Dict) (now_ms : Int) (api_secret : String) : Dict :=
  let params := binance_presigned params0 now_ms
  dictSet params "signature" (.scalar (.str (binance_sign_params params api_secret)))

/-- The pre-network phase of `binance_get_futures_income`: validate `limit`,
then build the params dict (a falsy `symbol`/`income_type` — `None` or the
empty string — is omitted, matching `if symbol:`). -/
def binance_income_params (symbol income_type : Option String)
    (start_time_ms end_time_ms page : Option Int) (limit recv_window : Int) :
    Except String Dict :=
  if ¬ (1 ≤ limit ∧ limit ≤ 1000) then .error "limit must be between 1 and 1000"
  else .ok
    ([("recvWindow", .scalar (.int recv_window)), ("limit", .scalar (.int limit))]
     ++ (match symbol with | some s => if s = "" then [] else [("symbol", .scalar (.str s))] | none => [])
     ++ (match income_type with | some s => if s = "" then [] else [("incomeType", .scalar (.str s))] | none => [])
     ++ (match start_time_ms with | some n => [("startTime", .scalar (.int n))] | none => [])
     ++ (match end_time_ms with | some n => [("endTime", .scalar (.int n))] | none => [])
     ++ (match page with | some n => [("page", .scalar (.int n))] | none => []))

/-! ### Heap model for `_binance_signed_get`'s `params = dict(params)` copy

Python dicts are mutable heap objects; to state that the caller's dict is
not mutated we model a store of dicts addressed by references.  `dict(params)`
allocates a fresh reference; `setdefault` and item assignment write through
the local reference only. -/

abbrev Store := List Dict

def storeRead (st : Store) (r : Nat) : Dict := st.getD r []

def storeWrite (st : Store) (r : Nat) (d : Dict) : Store := st.set r d

def storeAlloc (st : Store) (d : Dict) : Store × Nat := (st ++ [d], st.length)

/-- `_binance_signed_get` up to the network call, with explicit dict
mutation: copy the caller's dict, `setdefault` the timestamp on the copy,
assign the signature on the copy.  Returns the store and the reference to
the request-params dict. -/
def binance_signed_get_heap (st : Store) (paramsRef : Nat) (now_ms : Int)
    (api_secret : String) : Store × Nat :=
  let alloc := storeAlloc st (storeRead st paramsRef)
  let st1 := alloc.1
  let r := alloc.2
  let st2 := storeWrite st1 r (dictSetdefault (storeRead st1 r) "timestamp"
    (.scalar (.int now_ms)))
  let d := storeRead st2 r
  let st3 := storeWrite st2 r (dictSet d "signature"
    (.scalar (.str (binance_sign_params d api_secret))))
  (st3, r)

/-! ## OKX signing (`_okx_sign`, `okx_get_positions`) -/

/-- ASCII upper-casing of one character, as Python `str.upper()` does on the
ASCII strings this program signs. -/
def pyUpperChar (c : Char) : Char :=
  if 97 ≤ c.toNat ∧ c.toNat ≤ 122 then Char.ofNat (c.toNat - 32) else c

/-- `method.upper()` (ASCII). -/
def pyUpper (s : String) : String := String.mk (s.data.map pyUpperChar)

/-- `_okx_sign`: base64 of the raw HMAC-SHA256 digest of
`timestamp + method.upper() + request_path + body`. -/
def okx_sign (timestamp method request_path body secret : String) : String :=
  base64Encode (hmacSha256 (utf8 secret)
    (utf8 (timestamp ++ pyUpper method ++ request_path ++ body)))

/-- Spec-side OKX signature, following the specification's words: base64
(not hex) of the raw HMAC-SHA256 digest of
`timestamp ++ METHOD(uppercased) ++ requestPath ++ body`. -/
def okxSignatureSpec (timestamp method request_path body secret : String) : String :=
  base64Encode (hmacSha256 (utf8 secret)
    (utf8 (timestamp ++ pyUpper method ++ request_path ++ body)))

/-- The params dict built by `okx_get_positions` (a falsy argument — `None`
or the empty string — is omitted, matching `if inst_type:` etc.). -/
def okx_params (inst_type inst_id pos_id : Option String) : List (String × String) :=
  (match inst_type with | some s => if s = "" then [] else [("instType", s)] | none => [])
  ++ (match inst_id with | some s => if s = "" then [] else [("instId", s)] | none => [])
  ++ (match pos_id with | some s => if s = "" then [] else [("posId", s)] | none => [])

/-- `request_path = f"{path}?{query}" if query else path`. -/
def okx_request_path (params : List (String × String)) : String :=
  let query := urlencode params
  if query = "" then "/api/v5/account/positions"
  else "/api/v5/account/positions" ++ "?" ++ query

/-- The signature `okx_get_positions` sends: method `GET`, empty body. -/
def okx_get_positions_sign (timestamp api_secret : String)
    (inst_type inst_id pos_id : Option String) : String :=
  okx_sign timestamp "GET" (okx_request_path (okx_params inst_type inst_id pos_id))
    "" api_secret

/-! ## JSON responses and the OKX double-layer error check -/

/-- Parsed JSON values (numbers restricted to integers, which is all the
claims need). -/
inductive Json where
  | null
  | bool (b : Bool)
  | str (s : String)
  | num (n : Int)
  | arr (elems : List Json)
  | obj (fields : List (String × Json))

/-- Python `d.get(k)` on a parsed JSON value: `none` when `d` is not a dict
or the key is absent. -/
def jGet (j : Json) (k : String) : Option Json :=
  match j with
  | .obj fields => (fields.find? (fun p => p.1 == k)).map (·.2)
  | _ => none

/-- `isinstance(data, dict) and data.get("code") not in (None, "0")` is the
error condition; this is its negation.  A JSON `null` field value is Python
`None`, hence in `(None, "0")`. -/
def okx_code_ok (data : Json) : Bool :=
  match data with
  | .obj fields =>
    match ((fields.find? (fun p => p.1 == "code")).map (·.2) : Option Json) with
    | none => true
    | some Json.null => true
    | some (Json.str s) => s == "0"
    | some _ => false
  | _ => true

inductive OkxError where
  | httpError (status : Nat) (data : Json)
  | apiError (data : Json)

/-- The response checks of `okx_get_positions` after JSON parsing: a non-200
status raises the HTTP-level error first; then, with HTTP 200, a dict body
whose `code` is neither absent, `None`, nor `"0"` raises the API-level error. -/
def okx_check_response (status : Nat) (data : Json) : Except OkxError Json :=
  if status ≠ 200 then .error (.httpError status data)
  else if ¬ okx_code_ok data then .error (.apiError data)
  else .ok data

/-! ## Position selection (`_pick_okx_position`, the `__main__` Bybit pick) -/

/-- `p.get("instId") == inst_id` for a position entry `p`. -/
def instIdMatches (p : Json) (iid : String) : Bool :=
  match jGet p "instId" with
  | some (.str s) => s == iid
  | _ => false

/-- `_pick_okx_position`: take `resp.get("data", [])`; `None` unless it is a
non-empty list; with a falsy `inst_id` return `data[0]`; otherwise return the
first entry whose `instId` equals `inst_id`, falling back to `data[0]`. -/
def pick_okx_position (resp : Json) (inst_id : Option String) : Option Json :=
  let data := match jGet resp "data" with | some d => d | none => .arr []
  match data with
  | .arr elems =>
    if elems.isEmpty then none
    else
      match inst_id with
      | none => elems.head?
      | some iid =>
        if iid = "" then elems.head?
        else
          match elems.find? (fun p => instIdMatches p iid) with
          | some p => some p
          | none => elems.head?
  | _ => none

/-- `p.get("symbol") == target` for a Bybit position entry. -/
def symbolMatches (p : Json) (sym : String) : Bool :=
  match jGet p "symbol" with
  | some (.str s) => s == sym
  | _ => false

/-- The `__main__` Bybit selection:
`next((p for p in bybit_list if p.get("symbol") == target), None)`. -/
def bybit_pick (plist : List Json) (target : String) : Option Json :=
  plist.find? (fun p => symbolMatches p target)

/-! ## Concrete fixtures used by counterexamples and witnesses -/

/-- An OKX positions response whose only entry has a non-matching `instId`. -/
def okxRespOnlyOther : Json :=
  .obj [("code", .str "0"), ("msg", .str ""),
        ("data", .arr [.obj [("instId", .str "BTC-USDT-SWAP"), ("pos", .str "1")]])]

/-- An HTTP-200 OKX body whose `code` field is JSON `null`. -/
def okxNullCodeBody : Json :=
  .obj [("code", .null), ("msg", .str "boom")]

/-! # Theorems

First, known-answer tests pinning the embedded primitives to their published
test vectors (FIPS 180-4 / RFC 2104 / RFC 4648), so the signing theorems are
about the real algorithms. -/

theorem sha256_known_answer_empty :
    hexLower (sha256 []) =
      "e3b0c44298fc1c149afbf4c8996fb92427ae41e4649b934ca495991b7852b855" := by
  decide

theorem sha256_known_answer_abc :
    hexLower (sha256 (utf8 "abc")) =
      "ba7816bf8f01cfea414140de5dae2223b00361a396177a9cb410ff61f20015ad" := by
  decide

theorem hmac_known_answer :
    hexLower (hmacSha256 (utf8 "key")
        (utf8 "The quick brown fox jumps over the lazy dog")) =
      "f7bc83f430538424b13298e6aa6fb143ef4d59a14946175997479dbc2d1a3cd8" := by
  decide

theorem base64_known_answers :
    base64Encode (utf8 "Man") = "TWFu" ∧ base64Encode (utf8 "Ma") = "TWE=" ∧
    base64Encode (utf8 "M") = "TQ==" := by
  decide

theorem urlencode_known_answer :
    urlencode [("a b", "c&d"), ("e", "f=g")] = "a+b=c%26d&e=f%3Dg" := by
  decide

theorem urlencode_doseq_known_answer :
    urlencodeDoseq [("k", .arr [.str "1", .str "2"]), ("x", .scalar (.int 3))]
      = "k=1&k=2&x=3" := by
  decide

/-! ## C7: Binance `limit` validation -/

/-- C7: the pre-network phase of `binance_get_futures_income` succeeds exactly
when `limit` lies in `[1, 1000]`; every out-of-range value (such as 0, 1001,
or a negative value) is rejected by the local `ValueError` check before any
network request is built, while 1 and 1000 are accepted. -/
theorem binance_income_limit_validated :
    ∀ (symbol income_type : Option String) (start_ms end_ms page : Option Int)
      (limit recv_window : Int),
      (binance_income_params symbol income_type start_ms end_ms page
          limit recv_window).isOk = true ↔ 1 ≤ limit ∧ limit ≤ 1000 := by
  intro s it st en pg limit rw
  unfold binance_income_params
  split
  · rename_i h
    simpa [Except.isOk, Except.toBool] using h
  · rename_i h
    rw [not_not] at h
    simpa [Except.isOk, Except.toBool] using h

/-! ## C10: the signing primitives are deterministic -/

/-- C10: each signing primitive is a pure function of its arguments — two
invocations of `bybit_hmac_sign`, `binance_sign_params`, or `okx_sign` on
equal inputs produce equal signatures. -/
theorem signing_primitives_deterministic :
    (∀ m s m' s' : String, m = m' → s = s' →
        bybit_hmac_sign m s = bybit_hmac_sign m' s')
    ∧ (∀ (p p' : Dict) (s s' : String), p = p' → s = s' →
        binance_sign_params p s = binance_sign_params p' s')
    ∧ (∀ t m rp b s t' m' rp' b' s' : String,
        t = t' → m = m' → rp = rp' → b = b' → s = s' →
        okx_sign t m rp b s = okx_sign t' m' rp' b' s') := by
  refine ⟨?_, ?_, ?_⟩
  · intro m s m' s' hm hs; rw [hm, hs]
  · intro p p' s s' hp hs; rw [hp, hs]
  · intro t m rp b s t' m' rp' b' s' h1 h2 h3 h4 h5; rw [h1, h2, h3, h4, h5]

/-- Witness for C10 at concrete inputs. -/
theorem signing_primitives_deterministic_witness :
    bybit_hmac_sign "msg" "sec" = bybit_hmac_sign "msg" "sec" :=
  signing_primitives_deterministic.1 "msg" "sec" "msg" "sec" rfl rfl

/-! ## C3: OKX signature construction -/

/-- C3: `_okx_sign` is the base64 encoding (not hex) of the raw HMAC-SHA256
digest of `timestamp ++ uppercased method ++ requestPath ++ body`; the
positions request signs with method `GET` and the empty body, and the base64
output genuinely differs from the hex encoding of the same digest. -/
theorem okx_signature_base64_of_concat :
    (∀ ts m p b s : String, okx_sign ts m p b s = okxSignatureSpec ts m p b s)
    ∧ (∀ (ts sec : String) (it ii pi : Option String),
        okx_get_positions_sign ts sec it ii pi
          = okxSignatureSpec ts "GET" (okx_request_path (okx_params it ii pi)) "" sec)
    ∧ okx_sign "ts" "get" "/p" "" "k"
        ≠ hexLower (hmacSha256 (utf8 "k") (utf8 ("ts" ++ "GET" ++ "/p" ++ ""))) := by
  refine ⟨fun _ _ _ _ _ => rfl, fun _ _ _ _ _ => rfl, ?_⟩
  decide

/-! ## The OKX double-layer response check (C8, C2) -/

/-- The error condition of the OKX application-level check, spelled out:
the `code` key is present with a value that is neither JSON `null` nor the
string `"0"`. -/
theorem okx_code_ok_eq_false_iff (data : Json) :
    okx_code_ok data = false ↔
      ∃ v, jGet data "code" = some v ∧ v ≠ Json.null ∧ v ≠ Json.str "0" := by
  cases data <;> simp [okx_code_ok, jGet]
  case obj fields =>
    rcases hf : List.find? (fun p => p.1 == "code") fields with _ | kv
    · simp [hf]
    · obtain ⟨k, v⟩ := kv
      cases v <;> simp [hf]

/-- C8: with HTTP 200, a non-dict body, or a dict body with no `code` key, is
returned as success; the application-level error branch is taken exactly when
the `code` key is present with a value that is neither `None` (JSON null) nor
the string `"0"`. -/
theorem okx_success_when_code_absent :
    (∀ data : Json, (∀ fields, data ≠ Json.obj fields) →
        okx_check_response 200 data = .ok data)
    ∧ (∀ fields, jGet (Json.obj fields) "code" = none →
        okx_check_response 200 (Json.obj fields) = .ok (Json.obj fields))
    ∧ (∀ data : Json, okx_check_response 200 data = .error (.apiError data)
        ↔ ∃ v, jGet data "code" = some v ∧ v ≠ Json.null ∧ v ≠ Json.str "0") := by
  have herr : ∀ data : Json, okx_check_response 200 data = .error (.apiError data)
      ↔ okx_code_ok data = false := by
    intro data
    unfold okx_check_response
    cases hok : okx_code_ok data <;> simp [hok]
  refine ⟨?_, ?_, ?_⟩
  · intro data h
    have hok : okx_code_ok data = true := by
      cases data
      case obj fields => exact absurd rfl (h fields)
      all_goals rfl
    unfold okx_check_response
    simp [hok]
  · intro fields h
    have hok : okx_code_ok (Json.obj fields) = true := by
      rcases hcode : okx_code_ok (Json.obj fields) with _ | _
      · exfalso
        rcases (okx_code_ok_eq_false_iff _).mp hcode with ⟨v, hv, -, -⟩
        rw [h] at hv
        exact Option.noConfusion hv
      · rfl
    unfold okx_check_response
    simp [hok]
  · intro data
    rw [herr data, okx_code_ok_eq_false_iff]

/-- Witness for C8: a non-dict 200 body is returned as success. -/
theorem okx_success_when_code_absent_witness :
    okx_check_response 200 (Json.str "payload") = .ok (Json.str "payload") :=
  okx_success_when_code_absent.1 (Json.str "payload") (fun _ h => Json.noConfusion h)

/-- C2 counterexample: an HTTP-200 body whose `code` field holds JSON `null` —
a value other than the string `"0"` — is returned as success, not raised as an
application-level error. -/
theorem okx_null_code_not_raised :
    okx_check_response 200 okxNullCodeBody = .ok okxNullCodeBody ∧
    ∀ e, okx_check_response 200 okxNullCodeBody ≠ .error e := by
  refine ⟨rfl, fun e h => ?_⟩
  rw [show okx_check_response 200 okxNullCodeBody = .ok okxNullCodeBody from rfl] at h
  exact Except.noConfusion h

/-- C2 (amended): with HTTP 200, a dict body whose `code` field holds a value
that is neither JSON `null` nor the string `"0"` is raised as the
application-level error; a non-200 status is raised as the distinct HTTP-level
error before the application-level check is reached. -/
theorem okx_api_error_on_nonzero_code :
    (∀ (fields : List (String × Json)) (v : Json),
        jGet (Json.obj fields) "code" = some v → v ≠ Json.null → v ≠ Json.str "0" →
        okx_check_response 200 (Json.obj fields)
          = .error (.apiError (Json.obj fields)))
    ∧ (∀ (status : Nat) (data : Json), status ≠ 200 →
        okx_check_response status data = .error (.httpError status data)) := by
  constructor
  · intro fields v hv hnull hzero
    have hok : okx_code_ok (Json.obj fields) = false :=
      (okx_code_ok_eq_false_iff _).mpr ⟨v, hv, hnull, hzero⟩
    unfold okx_check_response
    simp [hok]
  · intro status data h
    unfold okx_check_response
    simp [h]

/-- Witness for C2 (amended): the spec's own example body
`{"code":"1","msg":"error"}` with HTTP 200 is raised as the API-level error. -/
theorem okx_api_error_on_nonzero_code_witness :
    okx_check_response 200 (Json.obj [("code", Json.str "1"), ("msg", Json.str "error")])
      = .error (.apiError (Json.obj [("code", Json.str "1"), ("msg", Json.str "error")])) :=
  okx_api_error_on_nonzero_code.1 _ (Json.str "1") rfl
    (by intro h; exact Json.noConfusion h)
    (by intro h; injection h with h'; exact absurd h' (by decide))

/-! ## Position selection (C1) -/

/-- C1 counterexample: `_pick_okx_position` on a positions list whose only
entry has a non-matching `instId` returns that first unrelated entry, not
not-found. -/
theorem pick_okx_falls_back_to_first :
    pick_okx_position okxRespOnlyOther (some "NIGHT-USDT-SWAP") ≠ none ∧
    pick_okx_position okxRespOnlyOther (some "NIGHT-USDT-SWAP")
      = some (Json.obj [("instId", Json.str "BTC-USDT-SWAP"), ("pos", Json.str "1")]) := by
  refine ⟨fun h => ?_, rfl⟩
  rw [show pick_okx_position okxRespOnlyOther (some "NIGHT-USDT-SWAP")
        = some (Json.obj [("instId", Json.str "BTC-USDT-SWAP"), ("pos", Json.str "1")])
      from rfl] at h
  exact Option.noConfusion h

/-- C1 (amended): the `__main__` Bybit selection returns `None` whenever no
list entry matches the target symbol; `_pick_okx_position`, by contrast,
returns the FIRST element as a fallback when the target `instId` matches no
entry of a non-empty list (it returns `None` only for a missing, non-list, or
empty `data`). -/
theorem position_selection_not_found :
    (∀ (plist : List Json) (target : String),
        (∀ p ∈ plist, symbolMatches p target = false) →
        bybit_pick plist target = none)
    ∧ (∀ (resp : Json) (iid : String) (elems : List Json),
        jGet resp "data" = some (Json.arr elems) → elems ≠ [] → iid ≠ "" →
        (∀ p ∈ elems, instIdMatches p iid = false) →
        pick_okx_position resp (some iid) = elems.head?) := by
  constructor
  · intro plist target h
    unfold bybit_pick
    rw [List.find?_eq_none]
    intro p hp
    simp [h p hp]
  · intro resp iid elems hdata hne hiid h
    have hfind : elems.find? (fun p => instIdMatches p iid) = none := by
      rw [List.find?_eq_none]
      intro p hp
      simp [h p hp]
    unfold pick_okx_position
    simp only [hdata]
    have hempty : elems.isEmpty = false := by
      cases elems
      · exact absurd rfl hne
      · rfl
    simp [hempty, hiid, hfind]

/-- Witness for C1 (amended): the Bybit selection on a list containing only a
non-matching symbol yields not-found. -/
theorem position_selection_not_found_witness :
    bybit_pick [Json.obj [("symbol", Json.str "BTCUSDT")]] "NIGHTUSDT" = none :=
  position_selection_not_found.1 _ _ (by
    intro p hp
    rw [List.mem_singleton] at hp
    subst hp
    rfl)

/-! ## Binance signature placement (C5) -/

/-- Every key of the params map after the `timestamp` default is still not
`"signature"`, provided the caller did not pass one. -/
theorem binance_presigned_no_signature_key (params0 : Dict) (now : Int)
    (h : ∀ p ∈ params0, p.1 ≠ "signature") :
    ∀ p ∈ binance_presigned params0 now, p.1 ≠ "signature" := by
  intro p hp
  unfold binance_presigned dictSetdefault at hp
  split at hp
  · exact h p hp
  · rcases List.mem_append.mp hp with h1 | h2
    · exact h p h1
    · rw [List.mem_singleton] at h2
      subst h2
      show "timestamp" ≠ "signature"
      decide

/-- C5: when the caller's map carries no `signature` key, `_binance_signed_get`
produces exactly the timestamp-defaulted map with `signature` appended as the
final entry; the appended signature is the lowercase-hex HMAC-SHA256 of the
doseq URL encoding of the map as it stood before the append — that is, of the
final parameter map with the `signature` key excluded — and that signed map
already contains the (possibly call-time-defaulted) `timestamp`. -/
theorem binance_signature_appended_last :
    ∀ (params0 : Dict) (now : Int) (secret : String),
      (∀ p ∈ params0, p.1 ≠ "signature") →
      binance_signed_get_params params0 now secret
          = binance_presigned params0 now
            ++ [("signature", .scalar (.str (hexLower (hmacSha256 (utf8 secret)
                  (utf8 (urlencodeDoseq (binance_presigned params0 now)))))))]
      ∧ (binance_signed_get_params params0 now secret).map Prod.fst
          = (binance_presigned params0 now).map Prod.fst ++ ["signature"]
      ∧ "timestamp" ∈ (binance_presigned params0 now).map Prod.fst
      ∧ (binance_signed_get_params params0 now secret).filter
            (fun p => p.1 != "signature")
          = binance_presigned params0 now := by
  intro params0 now secret h
  have hkeys := binance_presigned_no_signature_key params0 now h
  have hnosig : (binance_presigned params0 now).any (fun p => p.1 == "signature")
      = false := by
    rw [List.any_eq_false]
    intro p hp
    simp [hkeys p hp]
  have hfirst : binance_signed_get_params params0 now secret
      = binance_presigned params0 now
        ++ [("signature", .scalar (.str (hexLower (hmacSha256 (utf8 secret)
              (utf8 (urlencodeDoseq (binance_presigned params0 now)))))))] := by
    unfold binance_signed_get_params dictSet binance_sign_params
    simp [hnosig]
  refine ⟨hfirst, ?_, ?_, ?_⟩
  · rw [hfirst]
    simp
  · unfold binance_presigned dictSetdefault
    split
    · rename_i hany
      rcases List.any_eq_true.mp hany with ⟨p, hp, hpt⟩
      rw [beq_iff_eq] at hpt
      exact List.mem_map.mpr ⟨p, hp, hpt⟩
    · simp
  · rw [hfirst, List.filter_append]
    have h1 : (binance_presigned params0 now).filter (fun p => p.1 != "signature")
        = binance_presigned params0 now := by
      rw [List.filter_eq_self]
      intro p hp
      simpa using hkeys p hp
    rw [h1]
    simp

/-- Witness for C5: on a concrete income-style params map the final key order
is `recvWindow`, the defaulted `timestamp`, then `signature` last. -/
theorem binance_signature_appended_last_witness :
    (binance_signed_get_params [("recvWindow", PyVal.scalar (PyScalar.int 5000))]
        1700000000000 "s").map Prod.fst = ["recvWindow", "timestamp", "signature"] := by
  have h := (binance_signature_appended_last
      [("recvWindow", PyVal.scalar (PyScalar.int 5000))] 1700000000000 "s"
      (by intro p hp; rw [List.mem_singleton] at hp; subst hp; decide)).2.1
  rw [h]
  rfl

/-! ## The caller's dict is not mutated (C9) -/

theorem storeRead_append_lt (st : Store) (d : Dict) (r : Nat) (h : r < st.length) :
    storeRead (st ++ [d]) r = storeRead st r := by
  unfold storeRead
  simp [List.getElem?_append_left h]

theorem storeRead_append_self (st : Store) (d : Dict) :
    storeRead (st ++ [d]) st.length = d := by
  unfold storeRead
  simp [List.getElem?_append_right (Nat.le_refl _)]

theorem storeRead_set_self (st : Store) (r : Nat) (d : Dict) (h : r < st.length) :
    storeRead (storeWrite st r d) r = d := by
  unfold storeRead storeWrite
  simp [List.getElem?_set_self (by simpa using h)]

theorem storeRead_set_ne (st : Store) (r r' : Nat) (d : Dict) (h : r ≠ r') :
    storeRead (storeWrite st r d) r' = storeRead st r' := by
  unfold storeRead storeWrite
  simp [List.getElem?_set_ne h]

/-- C9: `_binance_signed_get` copies the caller's params dict before the
`timestamp` default and the `signature` insertion, so the caller's dict reads
back unchanged from the store, while the request dict it builds is exactly
the value-level `binance_signed_get_params` of the caller's map. -/
theorem binance_caller_params_unmutated :
    ∀ (st : Store) (pr : Nat) (now : Int) (secret : String), pr < st.length →
      storeRead (binance_signed_get_heap st pr now secret).1 pr = storeRead st pr
      ∧ storeRead (binance_signed_get_heap st pr now secret).1
          (binance_signed_get_heap st pr now secret).2
          = binance_signed_get_params (storeRead st pr) now secret := by
  intro st pr now secret h
  have hne : st.length ≠ pr := Nat.ne_of_gt h
  have hlen1 : st.length < (st ++ [storeRead st pr]).length := by
    simp
  have hread1 : storeRead (st ++ [storeRead st pr]) st.length = storeRead st pr :=
    storeRead_append_self st _
  constructor
  · simp only [binance_signed_get_heap, storeAlloc]
    rw [storeRead_set_ne _ _ _ _ hne, storeRead_set_ne _ _ _ _ hne]
    exact storeRead_append_lt st _ pr h
  · simp only [binance_signed_get_heap, storeAlloc]
    rw [storeRead_set_self, storeRead_set_self, hread1]
    · unfold binance_signed_get_params binance_presigned
      rfl
    · simp
    · simp [storeWrite]

/-- Witness for C9 at a concrete one-dict store. -/
theorem binance_caller_params_unmutated_witness :
    storeRead (binance_signed_get_heap
        [[("recvWindow", PyVal.scalar (PyScalar.int 5000))]] 0 7 "s").1 0
      = storeRead [[("recvWindow", PyVal.scalar (PyScalar.int 5000))]] 0 :=
  (binance_caller_params_unmutated _ 0 7 "s" (by decide)).1

/-! ## Bybit signature construction (C4) -/

theorem wordBytes_lt (w : Nat) : ∀ b ∈ wordBytes w, b < 256 := by
  intro b hb
  simp [wordBytes] at hb
  rcases hb with h | h | h | h <;> omega

theorem sha256_bytes_lt (msg : Bytes) : ∀ b ∈ sha256 msg, b < 256 := by
  intro b hb
  unfold sha256 at hb
  rw [List.mem_flatMap] at hb
  rcases hb with ⟨w, _, hw⟩
  exact wordBytes_lt w b hw

theorem hexDigitLower_mem_alphabet :
    ∀ n < 16, hexDigitLower n ∈ ("0123456789abcdef".data) := by decide

/-- Every character `.hexdigest()` emits is a lowercase hex digit. -/
theorem hexLower_chars (bs : Bytes) (h : ∀ b ∈ bs, b < 256) :
    ∀ c ∈ (hexLower bs).data, c ∈ ("0123456789abcdef".data) := by
  intro c hc
  unfold hexLower at hc
  rw [List.mem_flatMap] at hc
  rcases hc with ⟨b, hb, hcb⟩
  have hblt := h b hb
  rcases List.mem_cons.mp hcb with h1 | h2
  · subst h1
    exact hexDigitLower_mem_alphabet _ (by omega)
  · rw [List.mem_singleton] at h2
    subst h2
    exact hexDigitLower_mem_alphabet _ (by omega)

/-- C4: the Bybit signature produced in `bybit_get_positions` is exactly the
lowercase-hex HMAC-SHA256, under the API secret, of the pre-sign string
`timestamp ++ apiKey ++ recvWindow ++ urlencode(params)` with the query map
serialized in key-insertion order; every character of the emitted signature
is a lowercase hex digit. -/
theorem bybit_signature_matches_spec :
    (∀ (ts key secret : String) (ps : List (String × String)),
        bybit_signature ts key secret ps = bybitSignatureSpec ts key secret ps)
    ∧ (∀ (ts key secret : String) (ps : List (String × String)),
        ∀ c ∈ (bybit_signature ts key secret ps).data,
          c ∈ ("0123456789abcdef".data)) := by
  constructor
  · intro ts key secret ps
    rfl
  · intro ts key secret ps
    exact hexLower_chars _ (sha256_bytes_lt _)

/-- Witness for C4: the first character of a concretely computed Bybit
signature is a lowercase hex digit. -/
theorem bybit_signature_matches_spec_witness :
    '2' ∈ ("0123456789abcdef".data) :=
  bybit_signature_matches_spec.2 "1" "k" "s" [] '2' (by decide)

/-! ## Order sensitivity of the Bybit pre-sign string (C6)

The encoded query string determines the parameter list: byte-wise
`quote_plus` is decoded by `decBytes`, UTF-8 by `utf8Dec`, and the `&`-joined
`k=v` tokens split uniquely because encoded tokens never contain `&` or `=`. -/

theorem toNat_ofNat_of_valid (n : Nat) (h : n < 55296) : (Char.ofNat n).toNat = n := by
  have hv : Nat.isValidChar n := Or.inl h
  unfold Char.ofNat
  rw [dif_pos hv]
  rfl

theorem char_toNat_lt (c : Char) : c.toNat < 1114112 := by
  rcases c.valid with h | ⟨_, h2⟩
  · exact Nat.lt_trans h (by decide)
  · exact h2

theorem hexValUpper_hexDigitUpper : ∀ d < 16, hexValUpper (hexDigitUpper d) = d := by
  decide

theorem decBytes_plus (rest : List Char) :
    decBytes ('+' :: rest) = 32 :: decBytes rest := by
  conv_lhs => unfold decBytes
  rw [if_pos rfl]

theorem decBytes_percent (h l : Char) (rest : List Char) :
    decBytes ('%' :: h :: l :: rest)
      = (hexValUpper h * 16 + hexValUpper l) :: decBytes rest := by
  conv_lhs => unfold decBytes
  rw [if_neg (by decide), if_pos rfl]

theorem decBytes_lit (c : Char) (rest : List Char) (h1 : c ≠ '+') (h2 : c ≠ '%') :
    decBytes (c :: rest) = c.toNat :: decBytes rest := by
  conv_lhs => unfold decBytes
  rw [if_neg h1, if_neg h2]

/-- Decoding inverts byte-wise `quote_plus` encoding, byte by byte. -/
theorem decBytes_encByte (b : Nat) (hb : b < 256) (rest : List Char) :
    decBytes (encByte b ++ rest) = b :: decBytes rest := by
  unfold encByte
  by_cases hs : safeByte b
  · rw [if_pos hs]
    have h1 : Char.ofNat b ≠ '+' := by
      intro hcontra
      have h43 := congrArg Char.toNat hcontra
      rw [toNat_ofNat_of_valid b (by omega)] at h43
      rw [h43] at hs
      exact absurd hs (by decide)
    have h2 : Char.ofNat b ≠ '%' := by
      intro hcontra
      have h37 := congrArg Char.toNat hcontra
      rw [toNat_ofNat_of_valid b (by omega)] at h37
      rw [h37] at hs
      exact absurd hs (by decide)
    simp only [List.cons_append, List.nil_append]
    rw [decBytes_lit _ _ h1 h2, toNat_ofNat_of_valid b (by omega)]
  · rw [if_neg hs]
    by_cases h32 : b = 32
    · rw [if_pos h32]
      subst h32
      simp only [List.cons_append, List.nil_append]
      rw [decBytes_plus]
    · rw [if_neg h32]
      simp only [List.cons_append, List.nil_append]
      rw [decBytes_percent]
      rw [hexValUpper_hexDigitUpper (b / 16) (by omega),
          hexValUpper_hexDigitUpper (b % 16) (by omega)]
      congr 1
      omega

theorem decBytes_flatMap_encByte (bs : Bytes) (h : ∀ b ∈ bs, b < 256)
    (rest : List Char) :
    decBytes (bs.flatMap encByte ++ rest) = bs ++ decBytes rest := by
  induction bs with
  | nil => simp
  | cons b t ih =>
    simp only [List.flatMap_cons, List.append_assoc]
    rw [decBytes_encByte b (h b (by simp)) _, ih (fun x hx => h x (by simp [hx]))]
    rfl

theorem utf8Char_bytes_lt (c : Char) : ∀ b ∈ utf8Char c, b < 256 := by
  have hv := char_toNat_lt c
  intro b hb
  unfold utf8Char at hb
  split at hb
  · simp at hb; omega
  · rename_i h1
    split at hb
    · simp at hb; rcases hb with h | h <;> omega
    · rename_i h2
      split at hb
      · simp at hb; rcases hb with h | h | h <;> omega
      · simp at hb; rcases hb with h | h | h | h <;> omega

theorem utf8_bytes_lt (s : String) : ∀ b ∈ utf8 s, b < 256 := by
  intro b hb
  unfold utf8 at hb
  rw [List.mem_flatMap] at hb
  rcases hb with ⟨c, _, hc⟩
  exact utf8Char_bytes_lt c b hc

/-- One decode step undoes one character's UTF-8 encoding. -/
theorem utf8DecStep_utf8Char (c : Char) (x : Bytes) :
    ∃ b tail, utf8Char c ++ x = b :: tail ∧ utf8DecStep b tail = (c, x) := by
  have hv := char_toNat_lt c
  unfold utf8Char
  by_cases h1 : c.toNat < 128
  · rw [if_pos h1]
    refine ⟨c.toNat, x, rfl, ?_⟩
    unfold utf8DecStep
    rw [if_pos h1, Char.ofNat_toNat]
  · rw [if_neg h1]
    by_cases h2 : c.toNat < 2048
    · rw [if_pos h2]
      refine ⟨192 + c.toNat / 64, (128 + c.toNat % 64) :: x, by simp, ?_⟩
      unfold utf8DecStep
      rw [if_neg (by omega), if_pos (by omega)]
      show (Char.ofNat ((192 + c.toNat / 64 - 192) * 64
        + (128 + c.toNat % 64 - 128)), x) = (c, x)
      have harith : (192 + c.toNat / 64 - 192) * 64 + (128 + c.toNat % 64 - 128)
          = c.toNat := by omega
      rw [harith, Char.ofNat_toNat]
    · rw [if_neg h2]
      by_cases h3 : c.toNat < 65536
      · rw [if_pos h3]
        refine ⟨224 + c.toNat / 4096,
          (128 + c.toNat / 64 % 64) :: (128 + c.toNat % 64) :: x, by simp, ?_⟩
        unfold utf8DecStep
        rw [if_neg (by omega), if_neg (by omega), if_pos (by omega)]
        show (Char.ofNat ((224 + c.toNat / 4096 - 224) * 4096
          + (128 + c.toNat / 64 % 64 - 128) * 64
          + (128 + c.toNat % 64 - 128)), x) = (c, x)
        have harith : (224 + c.toNat / 4096 - 224) * 4096
            + (128 + c.toNat / 64 % 64 - 128) * 64 + (128 + c.toNat % 64 - 128)
            = c.toNat := by omega
        rw [harith, Char.ofNat_toNat]
      · rw [if_neg h3]
        refine ⟨240 + c.toNat / 262144,
          (128 + c.toNat / 4096 % 64) :: (128 + c.toNat / 64 % 64)
            :: (128 + c.toNat % 64) :: x, by simp, ?_⟩
        unfold utf8DecStep
        rw [if_neg (by omega), if_neg (by omega), if_neg (by omega)]
        show (Char.ofNat ((240 + c.toNat / 262144 - 240) * 262144
          + (128 + c.toNat / 4096 % 64 - 128) * 4096
          + (128 + c.toNat / 64 % 64 - 128) * 64
          + (128 + c.toNat % 64 - 128)), x) = (c, x)
        have harith : (240 + c.toNat / 262144 - 240) * 262144
            + (128 + c.toNat / 4096 % 64 - 128) * 4096
            + (128 + c.toNat / 64 % 64 - 128) * 64 + (128 + c.toNat % 64 - 128)
            = c.toNat := by omega
        rw [harith, Char.ofNat_toNat]

theorem utf8DecFuel_nil (fuel : Nat) : utf8DecFuel fuel [] = [] := by
  cases fuel <;> rfl

theorem utf8DecFuel_append :
    ∀ (cs : List Char) (rest : Bytes) (fuel : Nat), cs.length ≤ fuel →
      utf8DecFuel fuel (cs.flatMap utf8Char ++ rest)
        = cs ++ utf8DecFuel (fuel - cs.length) rest := by
  intro cs
  induction cs with
  | nil =>
    intro rest fuel _
    simp
  | cons c cs' ih =>
    intro rest fuel h
    cases fuel with
    | zero => simp at h
    | succ f =>
      rcases utf8DecStep_utf8Char c (cs'.flatMap utf8Char ++ rest)
        with ⟨b, tail, heq, hstep⟩
      simp only [List.flatMap_cons, List.append_assoc]
      rw [heq]
      conv_lhs => unfold utf8DecFuel
      rw [hstep]
      simp only [List.length_cons, Nat.succ_sub_succ]
      rw [ih rest f (by simpa using h)]
      rfl

theorem length_le_length_utf8 (cs : List Char) :
    cs.length ≤ (cs.flatMap utf8Char).length := by
  induction cs with
  | nil => simp
  | cons c t ih =>
    have hc : 1 ≤ (utf8Char c).length := by
      unfold utf8Char
      split
      · simp
      · split
        · simp
        · split <;> simp
    simp only [List.flatMap_cons, List.length_append, List.length_cons]
    omega

/-- Decoding inverts UTF-8 encoding of a whole string. -/
theorem utf8Dec_utf8 (s : String) : utf8Dec (utf8 s) = s.data := by
  unfold utf8Dec utf8
  have h := utf8DecFuel_append s.data [] (s.data.flatMap utf8Char).length
    (length_le_length_utf8 s.data)
  rw [List.append_nil, utf8DecFuel_nil, List.append_nil] at h
  exact h

theorem utf8_injective (s t : String) (h : utf8 s = utf8 t) : s = t := by
  have hs := utf8Dec_utf8 s
  rw [h, utf8Dec_utf8 t] at hs
  cases s with
  | mk ds =>
    cases t with
    | mk dt => exact congrArg String.mk hs.symm

/-- Decoding inverts `quote_plus` encoding of a whole string. -/
theorem decBytes_quotePlus (s : String) : decBytes (quotePlusChars s) = utf8 s := by
  have h := decBytes_flatMap_encByte (utf8 s) (utf8_bytes_lt s) []
  rw [List.append_nil] at h
  rw [show decBytes ([] : List Char) = [] from rfl, List.append_nil] at h
  exact h

theorem quotePlus_injective (s t : String) (h : quotePlusChars s = quotePlusChars t) :
    s = t := by
  have hs := decBytes_quotePlus s
  rw [h, decBytes_quotePlus t] at hs
  exact utf8_injective s t hs.symm

/-- Encoded output never contains a raw `&` or `=`. -/
theorem quotePlus_no_amp_eq (s : String) :
    ∀ c ∈ quotePlusChars s, c ≠ '&' ∧ c ≠ '=' := by
  intro c hc
  unfold quotePlusChars at hc
  rw [List.mem_flatMap] at hc
  rcases hc with ⟨b, hb, hcb⟩
  have hblt : b < 256 := utf8_bytes_lt s b hb
  unfold encByte at hcb
  by_cases hs : safeByte b
  · rw [if_pos hs] at hcb
    rw [List.mem_singleton] at hcb
    subst hcb
    constructor
    · intro hcontra
      have h38 := congrArg Char.toNat hcontra
      rw [toNat_ofNat_of_valid b (by omega)] at h38
      rw [h38] at hs
      exact absurd hs (by decide)
    · intro hcontra
      have h61 := congrArg Char.toNat hcontra
      rw [toNat_ofNat_of_valid b (by omega)] at h61
      rw [h61] at hs
      exact absurd hs (by decide)
  · rw [if_neg hs] at hcb
    by_cases h32 : b = 32
    · rw [if_pos h32] at hcb
      rw [List.mem_singleton] at hcb
      subst hcb
      exact ⟨by decide, by decide⟩
    · rw [if_neg h32] at hcb
      have hx : ∀ d < 16, hexDigitUpper d ≠ '&' ∧ hexDigitUpper d ≠ '=' := by decide
      rcases List.mem_cons.mp hcb with h1 | h2
      · subst h1
        exact ⟨by decide, by decide⟩
      · rcases List.mem_cons.mp h2 with h3 | h4
        · subst h3
          exact hx _ (by omega)
        · rw [List.mem_singleton] at h4
          subst h4
          exact hx _ (by omega)

/-- Splitting at the first occurrence of a separator is unambiguous. -/
theorem append_sep_inj (sep : Char) :
    ∀ (a a' b b' : List Char), sep ∉ a → sep ∉ a' →
      a ++ sep :: b = a' ++ sep :: b' → a = a' ∧ b = b' := by
  intro a
  induction a with
  | nil =>
    intro a' b b' _ ha' h
    cases a' with
    | nil =>
      simp only [List.nil_append, List.cons.injEq] at h
      exact ⟨rfl, h.2⟩
    | cons x t =>
      simp only [List.nil_append, List.cons_append, List.cons.injEq] at h
      exact absurd (h.1 ▸ List.mem_cons_self x t) ha'
  | cons x t ih =>
    intro a' b b' ha ha' h
    cases a' with
    | nil =>
      simp only [List.cons_append, List.nil_append, List.cons.injEq] at h
      exact absurd (h.1 ▸ List.mem_cons_self x t) (h.1 ▸ ha)
    | cons y u =>
      simp only [List.cons_append, List.cons.injEq] at h
      rcases h with ⟨hxy, htail⟩
      have hta : sep ∉ t := fun hm => ha (List.mem_cons_of_mem x hm)
      have hua : sep ∉ u := fun hm => ha' (List.mem_cons_of_mem y hm)
      rcases ih u b b' hta hua htail with ⟨h1, h2⟩
      exact ⟨by rw [hxy, h1], h2⟩

theorem qsToken_no_amp (k v : String) : '&' ∉ qsToken k v := by
  unfold qsToken
  intro h
  rcases List.mem_append.mp h with h1 | h2
  · exact (quotePlus_no_amp_eq k '&' h1).1 rfl
  · rcases List.mem_cons.mp h2 with h3 | h4
    · exact absurd h3 (by decide)
    · exact (quotePlus_no_amp_eq v '&' h4).1 rfl

theorem qsToken_inj (k v k' v' : String) (h : qsToken k v = qsToken k' v') :
    k = k' ∧ v = v' := by
  unfold qsToken at h
  have hk : '=' ∉ quotePlusChars k := fun hm => (quotePlus_no_amp_eq k '=' hm).2 rfl
  have hk' : '=' ∉ quotePlusChars k' := fun hm => (quotePlus_no_amp_eq k' '=' hm).2 rfl
  rcases append_sep_inj '=' _ _ _ _ hk hk' h with ⟨h1, h2⟩
  exact ⟨quotePlus_injective k k' h1, quotePlus_injective v v' h2⟩

/-- `&`-joining is injective on equal-length lists of `&`-free tokens. -/
theorem joinAmp_inj :
    ∀ (ts us : List (List Char)), ts.length = us.length →
      (∀ t ∈ ts, '&' ∉ t) → (∀ u ∈ us, '&' ∉ u) →
      joinAmp ts = joinAmp us → ts = us := by
  intro ts
  induction ts with
  | nil =>
    intro us hlen _ _ _
    cases us with
    | nil => rfl
    | cons u us' => simp at hlen
  | cons t ts' ih =>
    intro us hlen hts hus h
    cases us with
    | nil => simp at hlen
    | cons u us' =>
      cases ts' with
      | nil =>
        cases us' with
        | nil =>
          simp only [joinAmp] at h
          rw [h]
        | cons _ _ => simp at hlen
      | cons t2 ts'' =>
        cases us' with
        | nil => simp at hlen
        | cons u2 us'' =>
          simp only [joinAmp] at h
          rcases append_sep_inj '&' t u _ _ (hts t (by simp)) (hus u (by simp)) h
            with ⟨h1, h2⟩
          have hrest := ih (u2 :: us'') (by simpa using hlen)
            (fun x hx => hts x (List.mem_cons_of_mem t hx))
            (fun x hx => hus x (List.mem_cons_of_mem u hx)) h2
          rw [h1, hrest]

/-- `urlencode` is injective on equal-length parameter lists. -/
theorem urlencode_inj (ps qs : List (String × String)) (hlen : ps.length = qs.length)
    (h : urlencode ps = urlencode qs) : ps = qs := by
  unfold urlencode at h
  have h' := congrArg String.data h
  have htokens := joinAmp_inj _ _ (by simp [hlen])
    (by intro t ht
        rcases List.mem_map.mp ht with ⟨p, _, hp⟩
        exact hp ▸ qsToken_no_amp p.1 p.2)
    (by intro u hu
        rcases List.mem_map.mp hu with ⟨p, _, hp⟩
        exact hp ▸ qsToken_no_amp p.1 p.2) h'
  have hinj : Function.Injective (fun p : String × String => qsToken p.1 p.2) := by
    intro p q hpq
    rcases qsToken_inj p.1 p.2 q.1 q.2 hpq with ⟨h1, h2⟩
    exact Prod.ext h1 h2
  exact List.map_injective_iff.mpr hinj htokens

/-- C6: permuting a Bybit query map (so that the list actually changes)
changes the pre-sign string — the serialization is order-sensitive — and on a
concrete pair of reorderings the resulting signatures differ as well. -/
theorem bybit_presign_order_sensitive :
    (∀ (ts key : String) (ps qs : List (String × String)),
        ps.Perm qs → ps ≠ qs →
        bybit_pre_sign ts key ps ≠ bybit_pre_sign ts key qs)
    ∧ bybit_signature "1" "k" "s" [("a", "1"), ("b", "2")]
        ≠ bybit_signature "1" "k" "s" [("b", "2"), ("a", "1")] := by
  constructor
  · intro ts key ps qs hperm hne h
    apply hne
    apply urlencode_inj ps qs hperm.length_eq
    unfold bybit_pre_sign at h
    have h' := congrArg String.data h
    simp only [String.data_append] at h'
    have h'' := List.append_cancel_left h'
    cases ups : urlencode ps with
    | mk dps =>
      cases uqs : urlencode qs with
      | mk dqs =>
        rw [ups, uqs] at h''
        exact congrArg String.mk h''
  · decide

/-- Witness for C6: two orderings of the same two parameters produce
different pre-sign strings. -/
theorem bybit_presign_order_sensitive_witness :
    bybit_pre_sign "1" "k" [("a", "1"), ("b", "2")]
      ≠ bybit_pre_sign "1" "k" [("b", "2"), ("a", "1")] :=
  bybit_presign_order_sensitive.1 "1" "k" _ _
    (List.Perm.swap ("b", "2") ("a", "1") []) (by decide)

end PnL
